import Mathlib

/-
Formal model of the gauge benchmark runner's execution scheduler
(src/gauge/runner.cpp): registration ids, add-column parsing, filter
resolution, the per-benchmark run loop and results-table assembly.
Shallow embedding: the C++ control flow is translated function by function;
std::map is modelled as a key-sorted association list, std::getline on an
istringstream as a char-list scanner, and fatal assert calls as explicit
outcome constructors.
-/

namespace Gauge

/-- A value stored in a results-table cell: either a string or an unsigned
integer (the two kinds the runner itself writes). -/
inductive Value where
  | str (s : String)
  | nat (n : Nat)
deriving DecidableEq, Repr

/-- Model of std::getline on an istringstream: extract characters up to the
first occurrence of the delimiter (which is consumed but not stored) or up to
end of input. The result is none exactly when the stream fails, i.e. when
zero characters are extracted: the input is empty (or the stream was already
at end-of-file, which in this model is the same thing). -/
def getline (delim : Char) : List Char → Option (List Char × List Char)
  | [] => none
  | c :: cs =>
    if c = delim then
      some ([], cs)
    else
      match getline delim cs with
      | some (content, rest) => some (c :: content, rest)
      | none => some ([c], [])

/-- Lookup in an association list, mirroring std::map::find. -/
def mapFind {α : Type} (k : String) : List (String × α) → Option α
  | [] => none
  | (k', v) :: rest => if k' = k then some v else mapFind k rest

/-- Lexicographic comparison of char lists, modelling how std::less on
std::string orders the keys of a std::map. -/
def charListLt : List Char → List Char → Bool
  | _, [] => false
  | [], _ :: _ => true
  | c :: cs, d :: ds => c.toNat < d.toNat || (c = d && charListLt cs ds)

/-- The std::string strict order used by std::map. -/
def strLt (s t : String) : Bool := charListLt s.toList t.toList

/-- Assignment `m[k] = v` on a std::map modelled as a key-sorted association
list: keys stay strictly increasing and an existing binding is overwritten. -/
def mapInsert {α : Type} (k : String) (v : α) :
    List (String × α) → List (String × α)
  | [] => [(k, v)]
  | (k', v') :: rest =>
    if strLt k k' then (k, v) :: (k', v') :: rest
    else if k = k' then (k, v) :: rest
    else (k', v') :: mapInsert k v rest

/-- The error taxonomy of the runner's option and filter processing. -/
inductive GaugeError where
  | malformedFilter
  | testcaseNotFound
  | benchmarkNotFound
  | malformedAddColumn
  | duplicateColumn
deriving DecidableEq, Repr

/-- Outcome of runner::parse_add_column: the updated custom-columns map, a
thrown error, or a fatal assert. -/
inductive AddColumnOutcome where
  | ok (columns : List (String × String))
  | err (e : GaugeError)
  | assertFail
deriving DecidableEq, Repr

/-- runner::parse_add_column: split the option string at the first "=" with
two getline calls (either scan failing throws a malformed-add-column error),
assert that the column name is not already present, then insert it into the
ordered custom-columns map. -/
def parseAddColumn (columns : List (String × String)) (option : String) :
    AddColumnOutcome :=
  match getline '=' option.toList with
  | none => .err .malformedAddColumn
  | some (nameChars, rest) =>
    match getline '\n' rest with
    | none => .err .malformedAddColumn
    | some (valueChars, _) =>
      let name := String.mk nameChars
      let value := String.mk valueChars
      if (mapFind name columns).isSome then .assertFail
      else .ok (mapInsert name value columns)

/-- The add_column loop in runner::run_unsafe: fold parse_add_column over the
supplied option strings, stopping at the first error or assert. -/
def processAddColumns (columns : List (String × String)) :
    List String → AddColumnOutcome
  | [] => .ok columns
  | s :: rest =>
    match parseAddColumn columns s with
    | .ok cols => processAddColumns cols rest
    | outcome => outcome

/-- The runner's registration state: the keys of the id-indexed benchmark map
(in increasing id order, as std::map iterates them) and the test-case index
testcase name → (benchmark name → id), both maps ordered by name. -/
structure Registry where
  benchmarkIds : List Nat
  testcases : List (String × List (String × Nat))

/-- The inner loop of the `*.name` filter branch: per test-case (in index
order), run every benchmark whose name matches, collecting the executed ids. -/
def collectMatching (bm : String) :
    List (String × List (String × Nat)) → List Nat
  | [] => []
  | (_, bms) :: rest =>
    ((bms.filter (fun b => b.1 == bm)).map (·.2)) ++ collectMatching bm rest

/-- runner::run_single_filter: split the filter at the first "." with two
getline calls (either scan failing throws a malformed-filter error), then
resolve the four wildcard combinations. The ok result lists the ids of the
benchmarks the filter executes, in execution order; every error path executes
none. -/
def runSingleFilter (reg : Registry) (filter : String) :
    Except GaugeError (List Nat) :=
  match getline '.' filter.toList with
  | none => .error .malformedFilter
  | some (tcChars, rest) =>
    match getline '\n' rest with
    | none => .error .malformedFilter
    | some (bmChars, _) =>
      let tc := String.mk tcChars
      let bm := String.mk bmChars
      if tc = "*" ∧ bm = "*" then
        .ok reg.benchmarkIds
      else if tc = "*" then
        let ids := collectMatching bm reg.testcases
        if ids = [] then .error .benchmarkNotFound else .ok ids
      else if bm = "*" then
        match mapFind tc reg.testcases with
        | none => .error .testcaseNotFound
        | some bms => .ok (bms.map (·.2))
      else
        match mapFind tc reg.testcases with
        | none => .error .testcaseNotFound
        | some bms =>
          match mapFind bm bms with
          | none => .error .benchmarkNotFound
          | some id => .ok [id]

/-- runner::run_all_filters: run each filter in the order supplied. Returns
the ids of the benchmark bodies that actually executed together with the
error that aborted processing, if any. -/
def runAllFilters (reg : Registry) : List String → List Nat × Option GaugeError
  | [] => ([], none)
  | f :: fs =>
    match runSingleFilter reg f with
    | .error e => ([], some e)
    | .ok ids =>
      let (executed, err) := runAllFilters reg fs
      (ids ++ executed, err)

/-- One measured run of a benchmark body: whether accept_measurement approves
it, the iteration count the benchmark reports, and the set_value calls its
store_run performs on the freshly appended row. -/
structure Trial where
  accept : Bool
  iterations : Nat
  stored : List (String × Value)
deriving DecidableEq, Repr

/-- Observable behaviour of a benchmark under one configuration. The benchmark
class is an external collaborator of the scheduler; its answers to the
scheduler's queries are modelled as data. -/
structure BenchBehavior where
  skip : Bool
  needsWarmupIteration : Bool
  runs : Nat
  unitText : String
  extraColumns : List String
  trials : List Trial
deriving Repr

/-- A registered benchmark as the scheduler sees it: its identity plus its
behaviour as a function of the current configuration index (index 0 is used
when the benchmark declares no configuration sets). -/
structure BenchmarkSpec where
  testcaseName : String
  benchmarkName : String
  configCount : Nat
  behavior : Nat → BenchBehavior

/-- The command-line options the scheduler consults during a run. -/
structure Options where
  runs : Option Nat
  dry_run : Bool
  result_filter : Option (List String)
deriving Repr

/-- The effective run count of runner::run_benchmark: an explicit --runs
option overrides the benchmark's own declared run count. -/
def effectiveRuns (opts : Options) (beh : BenchBehavior) : Nat :=
  match opts.runs with
  | some r => r
  | none => beh.runs

/-- The tables::table collaborator: the declared column names in declaration
order, the constant-column values, and the rows appended so far (in append
order, each an association list of cell values). -/
structure Table where
  cols : List String
  constVals : List (String × Value)
  rows : List (List (String × Value))
deriving DecidableEq, Repr

/-- A table with no columns and no rows. -/
def Table.empty : Table := ⟨[], [], []⟩

/-- tables::table::add_const_column: declare a column and give it a single
value replicated across all rows. -/
def Table.addConstColumn (t : Table) (name : String) (value : String) : Table :=
  { t with cols := t.cols ++ [name],
           constVals := t.constVals ++ [(name, Value.str value)] }

/-- tables::table::add_column: declare a per-row column. -/
def Table.addColumn (t : Table) (name : String) : Table :=
  { t with cols := t.cols ++ [name] }

/-- tables::table::add_row: append a fresh empty row. -/
def Table.addRow (t : Table) : Table :=
  { t with rows := t.rows ++ [[]] }

/-- Set a named cell in a row, overwriting any previous value for the name. -/
def setCell (name : String) (v : Value) (row : List (String × Value)) :
    List (String × Value) :=
  (name, v) :: row.filter (fun p => p.1 ≠ name)

/-- tables::table::set_value: set a named cell of the most recently appended
row. -/
def Table.setValue (t : Table) (name : String) (v : Value) : Table :=
  { t with rows := t.rows.dropLast ++ [setCell name v (t.rows.getLast?.getD [])] }

/-- tables::table::has_column. -/
def Table.hasColumn (t : Table) (name : String) : Bool := t.cols.contains name

/-- tables::table::drop_column: remove the named column declaration, its
constant value and its per-row cells. -/
def Table.dropColumn (t : Table) (name : String) : Table :=
  { cols := t.cols.filter (fun c => c ≠ name),
    constVals := t.constVals.filter (fun p => p.1 ≠ name),
    rows := t.rows.map (fun r => r.filter (fun p => p.1 ≠ name)) }

/-- benchmark::prepare_table: the benchmark declares its own per-row columns. -/
def prepareTable (t : Table) (extra : List String) : Table :=
  extra.foldl Table.addColumn t

/-- benchmark::store_run: the benchmark stores its measurement-specific values
into the most recently appended row. -/
def storeRun (t : Table) (tr : Trial) : Table :=
  tr.stored.foldl (fun t p => t.setValue p.1 p.2) t

/-- Results-table assembly in runner::run_benchmark: a constant column per
entry of the custom-columns map (iterated in std::map key order), then the
constants unit, benchmark and testcase, then the per-row columns iterations
and run_number, then the columns the benchmark itself declares. -/
def buildTable (columns : List (String × String)) (b : BenchmarkSpec)
    (beh : BenchBehavior) : Table :=
  let t := columns.foldl (fun t p => t.addConstColumn p.1 p.2) Table.empty
  let t := t.addConstColumn "unit" beh.unitText
  let t := t.addConstColumn "benchmark" b.benchmarkName
  let t := t.addConstColumn "testcase" b.testcaseName
  let t := t.addColumn "iterations"
  let t := t.addColumn "run_number"
  prepareTable t beh.extraColumns

/-- The while loop of runner::run_benchmark: repeat setup, test_body and
tear_down; when accept_measurement approves, append a row, set its iterations
and run_number cells, let store_run fill in the rest and advance the accepted
run index. The loop ends only once `runs` rows are accepted; exhausting the
modelled trial stream first, none, corresponds to the loop never finishing. -/
def runLoop (runs : Nat) (trials : List Trial) (run : Nat) (t : Table) :
    Option Table :=
  if run < runs then
    match trials with
    | [] => none
    | tr :: rest =>
      if tr.accept then
        runLoop runs rest (run + 1)
          (storeRun
            ((t.addRow.setValue "iterations" (Value.nat tr.iterations)).setValue
              "run_number" (Value.nat run)) tr)
      else
        runLoop runs rest run t
  else
    some t

/-- The result-filter pass of runner::run_benchmark: for each name supplied
via --result_filter, in order, drop the column if the table has it, else skip
it. -/
def applyResultFilter : List String → Table → Table
  | [], t => t
  | n :: ns, t => applyResultFilter ns (if t.hasColumn n then t.dropColumn n else t)

/-- Outcome of runner::run_benchmark: a normal return (carrying the final
contents of the current-benchmark slot and the table dispatched to the
printers, if any), a fatal assert at the named site, or divergence of the run
loop. -/
inductive RunOutcome where
  | ret (slot : Option (String × String)) (dispatched : Option Table)
  | assertViolation (site : String)
  | diverge
deriving DecidableEq, Repr

/-- runner::run_benchmark for the benchmark's behaviour under the given
configuration index, starting from the given current-benchmark slot: return
untouched on a dry run; assert the slot is empty and acquire it; release and
return if the benchmark asks to be skipped; init and optionally warm up (the
warm-up measurement is discarded and never touches the table); compute the
effective run count, build the table, assert the run count is positive, run
the loop, apply the result filter, dispatch the table and release the slot. -/
def runBenchmark (opts : Options) (columns : List (String × String))
    (b : BenchmarkSpec) (cfg : Nat) (slot : Option (String × String)) :
    RunOutcome :=
  if opts.dry_run then .ret slot none
  else if slot.isSome then .assertViolation "current_benchmark"
  else
    let beh := b.behavior cfg
    if beh.skip then .ret none none
    else
      let runs := effectiveRuns opts beh
      let t := buildTable columns b beh
      if runs = 0 then .assertViolation "runs"
      else
        match runLoop runs beh.trials 0 t with
        | none => .diverge
        | some t' =>
          let result :=
            match opts.result_filter with
            | some names => applyResultFilter names t'
            | none => t'
          .ret none (some result)

/-- Modelled from the spec: benchmark::has_configurations (the benchmark class
itself is not among the scheduler sources) — whether the benchmark declared
any configuration sets, i.e. its configuration count is nonzero. -/
def hasConfigurations (b : BenchmarkSpec) : Bool := b.configCount != 0

/-- An observable scheduler action of run_benchmark_configurations. -/
inductive SchedEvent where
  | setConfig (i : Nat)
  | invokeRun
deriving DecidableEq, Repr

/-- The configuration for-loop of runner::run_benchmark_configurations as an
event trace, recursing on the number of remaining indices: set the current
configuration, then invoke run_benchmark, for each index in increasing
order. -/
def configEventsFrom (i : Nat) : Nat → List SchedEvent
  | 0 => []
  | Nat.succ k =>
    SchedEvent.setConfig i :: SchedEvent.invokeRun :: configEventsFrom (i + 1) k

/-- The event trace of runner::run_benchmark_configurations: iterate the
configuration indices when the benchmark declares configuration sets,
otherwise invoke run_benchmark exactly once. -/
def configEvents (b : BenchmarkSpec) : List SchedEvent :=
  if hasConfigurations b then configEventsFrom 0 b.configCount
  else [SchedEvent.invokeRun]

/-- The configuration for-loop of runner::run_benchmark_configurations with
run_benchmark executed for real: thread the current-benchmark slot through
the successive invocations and collect the dispatched tables. The result is
none when some invocation fails an assert or diverges. -/
def runConfigsFrom (opts : Options) (columns : List (String × String))
    (b : BenchmarkSpec) (i : Nat) :
    Nat → Option (String × String) →
    Option (List Table × Option (String × String))
  | 0, slot => some ([], slot)
  | Nat.succ k, slot =>
    match runBenchmark opts columns b i slot with
    | .ret slot' d =>
      match runConfigsFrom opts columns b (i + 1) k slot' with
      | some (tables, slotEnd) => some (d.toList ++ tables, slotEnd)
      | none => none
    | _ => none

/-- runner::run_benchmark_configurations: deliver the options, then either
run every declared configuration in index order or run the benchmark once. -/
def runBenchmarkConfigurations (opts : Options)
    (columns : List (String × String)) (b : BenchmarkSpec)
    (slot : Option (String × String)) :
    Option (List Table × Option (String × String)) :=
  if hasConfigurations b then
    runConfigsFrom opts columns b 0 b.configCount slot
  else
    match runBenchmark opts columns b 0 slot with
    | .ret slot' d => some (d.toList, slot')
    | _ => none

/-- Initial value of the static counter in runner::register_id. -/
def registerIdCounterInit : Nat := 1

/-- runner::register_id: assert the counter is below the maximum uint32 value,
then return the pre-incremented counter. The result pairs the id handed out
with the new counter value; none models the assert firing. -/
def registerId (id : Nat) : Option (Nat × Nat) :=
  if id < 2 ^ 32 - 1 then some (id + 1, id + 1) else none

/-- The row contents produced for one accepted run: the iterations and
run_number cells set by the scheduler, then the cells written by the
benchmark's store_run. -/
def acceptedRow (tr : Trial) (run : Nat) : List (String × Value) :=
  tr.stored.foldl (fun r p => setCell p.1 p.2 r)
    (setCell "run_number" (Value.nat run)
      (setCell "iterations" (Value.nat tr.iterations) []))

/-- A trial that accept_measurement approves. -/
def trialA : Trial := ⟨true, 5, []⟩

/-- A trial that accept_measurement rejects. -/
def trialR : Trial := ⟨false, 9, []⟩

/-- A concrete benchmark behaviour used to instantiate the theorems. -/
def behDemo : BenchBehavior := ⟨false, true, 2, "ms", [], [trialA, trialR, ⟨true, 7, []⟩]⟩

/-- A concrete benchmark without configuration sets. -/
def benchDemo : BenchmarkSpec := ⟨"T", "b", 0, fun _ => behDemo⟩

/-- A concrete benchmark with two configuration sets. -/
def benchDemo2 : BenchmarkSpec := ⟨"T", "b", 2, fun _ => behDemo⟩

/-- Default command-line options: no overrides, no dry run, no filter. -/
def optsDemo : Options := ⟨none, false, none⟩

/-- A concrete registry with one registered benchmark. -/
def regDemo : Registry := ⟨[1], [("T", [("b", 1)])]⟩

theorem getline_nil (delim : Char) : getline delim [] = none := rfl

theorem getline_cons (delim c : Char) (cs : List Char) :
    getline delim (c :: cs) =
      if c = delim then some ([], cs)
      else
        match getline delim cs with
        | some (content, rest) => some (c :: content, rest)
        | none => some ([c], []) := rfl

theorem getline_of_ne_nil (delim : Char) (input : List Char) (h : input ≠ []) :
    getline delim input =
      some (input.takeWhile (fun c => c != delim),
            (input.dropWhile (fun c => c != delim)).tail) := by
  induction input with
  | nil => exact absurd rfl h
  | cons c cs ih =>
    by_cases hc : c = delim
    · simp [getline, hc]
    · have hb : (c != delim) = true := by simp [hc]
      cases cs with
      | nil => simp [getline, hc]
      | cons d ds =>
        rw [getline_cons, if_neg hc, ih (by simp)]
        simp [List.takeWhile_cons, List.dropWhile_cons, hb]

theorem getline_append (delim : Char) (xs ys : List Char) (h : delim ∉ xs) :
    getline delim (xs ++ delim :: ys) = some (xs, ys) := by
  induction xs with
  | nil => simp [getline]
  | cons c cs ih =>
    have hc : ¬ c = delim := by
      rintro rfl; exact h (List.mem_cons_self _ _)
    have ih' := ih (fun hm => h (List.mem_cons_of_mem _ hm))
    rw [List.cons_append, getline_cons, if_neg hc, ih']

theorem getline_no_delim (delim : Char) (xs : List Char) (h : delim ∉ xs)
    (hne : xs ≠ []) : getline delim xs = some (xs, []) := by
  rw [getline_of_ne_nil delim xs hne]
  have hd : xs.dropWhile (fun c => c != delim) = [] := by
    rw [List.dropWhile_eq_nil_iff]
    intro x hx
    simp only [bne_iff_ne, ne_eq]
    rintro rfl; exact h hx
  have ht : xs.takeWhile (fun c => c != delim) = xs := by
    have := List.takeWhile_append_dropWhile (fun c => c != delim) xs
    rw [hd, List.append_nil] at this
    exact this
  rw [ht, hd]
  rfl

/-- C5: a filter string that is malformed — missing the "." separator, or with
either part produced from an empty getline scan — makes run_single_filter
throw the malformed-filter error (and not a not-found error). -/
theorem malformed_filter_detection (reg : Registry) (f : String)
    (h : '.' ∉ f.toList ∨ (f.toList.dropWhile (fun c => c != '.')).tail = []) :
    runSingleFilter reg f = Except.error GaugeError.malformedFilter := by
  by_cases hnil : f.toList = []
  · have hnil' : f.data = [] := hnil
    simp [runSingleFilter, String.toList, hnil', getline]
  · have hrest : (f.toList.dropWhile (fun c => c != '.')).tail = [] := by
      rcases h with h | h
      · have hdw : f.toList.dropWhile (fun c => c != '.') = [] := by
          rw [List.dropWhile_eq_nil_iff]
          intro x hx
          simp only [bne_iff_ne, ne_eq]
          rintro rfl; exact h hx
        rw [hdw]; rfl
      · exact h
    rw [runSingleFilter, getline_of_ne_nil '.' f.toList hnil, hrest]
    rfl

/-- C5 witness: a filter with no separator is reported as malformed. -/
theorem malformed_filter_detection_witness :
    runSingleFilter regDemo "nodot" = Except.error GaugeError.malformedFilter :=
  malformed_filter_detection regDemo "nodot" (Or.inl (by decide))

/-- C3 counterexample: with one registered benchmark and the filter list
["T.b", "x"], the second filter is malformed, yet the benchmark selected by
the first filter has already executed: the executed-id list is not empty. -/
theorem filters_error_after_execution :
    runSingleFilter regDemo "x" = Except.error GaugeError.malformedFilter ∧
    runAllFilters regDemo ["T.b", "x"] = ([1], some GaugeError.malformedFilter) ∧
    ([1] : List Nat) ≠ [] := by
  refine ⟨rfl, rfl, by decide⟩

/-- C3 amended: a filter error aborts processing at the failing filter — the
failing filter itself and all later filters execute no benchmark, and the
overall run always surfaces an error; in particular, when the first filter of
the list fails, no benchmark body runs at all. Benchmarks selected by earlier
filters in the list have already executed by the time a later filter's error
is detected. -/
theorem run_all_filters_abort :
    (∀ (reg : Registry) (f : String) (fs : List String) (e : GaugeError),
        runSingleFilter reg f = Except.error e →
        runAllFilters reg (f :: fs) = ([], some e)) ∧
    (∀ (reg : Registry) (fs : List String),
        (∃ f ∈ fs, ∃ e, runSingleFilter reg f = Except.error e) →
        (runAllFilters reg fs).2.isSome = true) := by
  constructor
  · intro reg f fs e h
    simp [runAllFilters, h]
  · intro reg fs
    induction fs with
    | nil => rintro ⟨f, hf, _⟩; exact absurd hf (by simp)
    | cons g gs ih =>
      rintro ⟨f, hf, e, he⟩
      rcases List.mem_cons.mp hf with rfl | hf'
      · simp [runAllFilters, he]
      · cases hg : runSingleFilter reg g with
        | error e' => simp [runAllFilters, hg]
        | ok ids =>
          have := ih ⟨f, hf', e, he⟩
          simp only [runAllFilters, hg]
          cases hrec : runAllFilters reg gs with
          | mk executed err =>
            rw [hrec] at this
            simpa using this

/-- C3 amended witness: when the first filter is malformed, nothing runs. -/
theorem run_all_filters_abort_witness :
    runAllFilters regDemo ["nodot", "T.b"] = ([], some GaugeError.malformedFilter) :=
  run_all_filters_abort.1 regDemo "nodot" ["T.b"] GaugeError.malformedFilter rfl

/-- C4: evaluating register_id at the initial counter value shows the first
registration receives id 2, not id 1 as the claim (and the code's own
comment, which reserves 0 as the invalid id and starts from one) states; the
counter is pre-incremented before being returned. -/
theorem register_id_first_id :
    registerId registerIdCounterInit = some (2, 2) ∧ (2 : Nat) ≠ 1 := by
  refine ⟨by decide, by decide⟩

theorem mapFind_mapInsert {α : Type} (k n : String) (v : α)
    (m : List (String × α)) :
    mapFind k (mapInsert n v m) = if n = k then some v else mapFind k m := by
  induction m with
  | nil => simp [mapInsert, mapFind]
  | cons p rest ih =>
    obtain ⟨k', v'⟩ := p
    by_cases h1 : strLt n k'
    · simp [mapInsert, h1, mapFind]
    · by_cases h2 : n = k'
      · subst h2
        have h1' : strLt n n = false := by simpa using h1
        by_cases hk : n = k
        · subst hk; simp [mapInsert, h1', mapFind]
        · simp [mapInsert, h1', mapFind, hk]
      · by_cases hk : k' = k <;> by_cases hn : n = k <;>
          simp_all [mapInsert, h1, h2, mapFind]

theorem parseAddColumn_ok {m m' : List (String × String)} {s : String}
    (h : parseAddColumn m s = AddColumnOutcome.ok m') :
    ∃ name value, mapFind name m = none ∧ m' = mapInsert name value m := by
  unfold parseAddColumn at h
  cases hg1 : getline '=' s.toList with
  | none => simp only [hg1] at h; cases h
  | some pr1 =>
    obtain ⟨nameChars, rest⟩ := pr1
    simp only [hg1] at h
    cases hg2 : getline '\n' rest with
    | none => simp only [hg2] at h; cases h
    | some pr2 =>
      obtain ⟨valueChars, rest2⟩ := pr2
      simp only [hg2] at h
      by_cases hfind : (mapFind (String.mk nameChars) m).isSome = true
      · rw [if_pos hfind] at h; cases h
      · rw [if_neg hfind] at h
        rw [AddColumnOutcome.ok.injEq] at h
        exact ⟨String.mk nameChars, String.mk valueChars,
               Option.not_isSome_iff_eq_none.mp (by simpa using hfind), h.symm⟩

/-- C7 amended: a duplicate add_column name trips the fatal assertion in
parse_add_column (a programming-error abort) rather than surfacing as a
DuplicateColumn error on the message-printing failure path; the first value
is never silently overwritten — a successful parse preserves every existing
binding, and the DuplicateColumn error value is never produced at all. -/
theorem duplicate_column_assertion :
    (∀ (m m' : List (String × String)) (s : String),
        parseAddColumn m s = AddColumnOutcome.ok m' →
        ∀ k v, mapFind k m = some v → mapFind k m' = some v) ∧
    (∀ (m : List (String × String)) (s : String),
        parseAddColumn m s ≠ AddColumnOutcome.err GaugeError.duplicateColumn) ∧
    (∀ (m : List (String × String)) (name value : String),
        '=' ∉ name.toList → '\n' ∉ value.toList → value ≠ "" →
        (mapFind name m).isSome = true →
        parseAddColumn m (name ++ "=" ++ value) = AddColumnOutcome.assertFail) := by
  refine ⟨?_, ?_, ?_⟩
  · intro m m' s h k v hk
    obtain ⟨name, value, hnone, rfl⟩ := parseAddColumn_ok h
    have hne : ¬ name = k := fun e => by rw [e, hk] at hnone; cases hnone
    rw [mapFind_mapInsert, if_neg hne]
    exact hk
  · intro m s h
    unfold parseAddColumn at h
    cases hg1 : getline '=' s.toList with
    | none => simp only [hg1] at h; simp at h
    | some pr1 =>
      obtain ⟨nameChars, rest⟩ := pr1
      simp only [hg1] at h
      cases hg2 : getline '\n' rest with
      | none => simp only [hg2] at h; simp at h
      | some pr2 =>
        obtain ⟨valueChars, rest2⟩ := pr2
        simp only [hg2] at h
        by_cases hfind : (mapFind (String.mk nameChars) m).isSome = true
        · rw [if_pos hfind] at h; cases h
        · rw [if_neg hfind] at h; cases h
  · intro m name value hname hvalue hvne hfind
    have hsplit : (name ++ "=" ++ value).toList =
        name.toList ++ '=' :: value.toList := by
      calc (name ++ "=" ++ value).toList
          = (name.toList ++ "=".toList) ++ value.toList := rfl
        _ = name.toList ++ '=' :: value.toList := by
            rw [List.append_assoc]; rfl
    have hv : value.toList ≠ [] := by
      intro he
      apply hvne
      have he' : value.data = [] := he
      cases value
      subst he'
      rfl
    unfold parseAddColumn
    rw [hsplit]
    simp only [getline_append '=' name.toList value.toList hname,
               getline_no_delim '\n' value.toList hvalue hv]
    rw [if_pos]
    exact hfind

/-- C7 counterexample: supplying the same add_column name twice ends in the
fatal assertion outcome, which is not the DuplicateColumn error outcome the
claim describes. -/
theorem duplicate_column_counterexample :
    processAddColumns [] ["cpu=i7", "cpu=arm"] = AddColumnOutcome.assertFail ∧
    AddColumnOutcome.assertFail ≠ AddColumnOutcome.err GaugeError.duplicateColumn := by
  exact ⟨rfl, by decide⟩

/-- C7 witness: the assertion fires on a concrete duplicate name. -/
theorem duplicate_column_assertion_witness :
    parseAddColumn [("cpu", "i7")] ("cpu" ++ "=" ++ "arm") =
      AddColumnOutcome.assertFail :=
  duplicate_column_assertion.2.2 [("cpu", "i7")] "cpu" "arm" (by decide)
    (by decide) (by decide) (by decide)

theorem charListLt_trans : ∀ (a b c : List Char), charListLt a b = true →
    charListLt b c = true → charListLt a c = true := by
  intro a
  induction a with
  | nil =>
    intro b c h1 h2
    cases b with
    | nil => exact h2
    | cons b0 bs =>
      cases c with
      | nil => simp [charListLt] at h2
      | cons c0 cs => rfl
  | cons a0 as ih =>
    intro b c h1 h2
    cases b with
    | nil => simp [charListLt] at h1
    | cons b0 bs =>
      cases c with
      | nil => simp [charListLt] at h2
      | cons c0 cs =>
        simp only [charListLt, Bool.or_eq_true, Bool.and_eq_true,
                   decide_eq_true_eq] at h1 h2 ⊢
        rcases h1 with h1 | ⟨rfl, h1⟩
        · rcases h2 with h2 | ⟨rfl, h2⟩
          · exact Or.inl (Nat.lt_trans h1 h2)
          · exact Or.inl h1
        · rcases h2 with h2 | ⟨rfl, h2⟩
          · exact Or.inl h2
          · exact Or.inr ⟨rfl, ih bs cs h1 h2⟩

theorem charListLt_trichotomy : ∀ a b : List Char,
    charListLt a b = true ∨ a = b ∨ charListLt b a = true := by
  intro a
  induction a with
  | nil =>
    intro b
    cases b with
    | nil => exact Or.inr (Or.inl rfl)
    | cons d ds => exact Or.inl rfl
  | cons c cs ih =>
    intro b
    cases b with
    | nil => exact Or.inr (Or.inr rfl)
    | cons d ds =>
      rcases Nat.lt_trichotomy c.toNat d.toNat with h | h | h
      · left; simp [charListLt, h]
      · have hcd : c = d := Char.ext (UInt32.ext h)
        subst hcd
        rcases ih ds with h' | h' | h'
        · left; simp [charListLt, h']
        · right; left; rw [h']
        · right; right; simp [charListLt, h']
      · right; right; simp [charListLt, h]

theorem strLt_trans (a b c : String) (h1 : strLt a b = true)
    (h2 : strLt b c = true) : strLt a c = true :=
  charListLt_trans a.toList b.toList c.toList h1 h2

theorem strLt_trichotomy (a b : String) :
    strLt a b = true ∨ a = b ∨ strLt b a = true := by
  rcases charListLt_trichotomy a.toList b.toList with h | h | h
  · exact Or.inl h
  · exact Or.inr (Or.inl (String.ext h))
  · exact Or.inr (Or.inr h)

theorem mem_keys_mapInsert {α : Type} (b n : String) (v : α) :
    ∀ m : List (String × α),
    b ∈ (mapInsert n v m).map Prod.fst → b = n ∨ b ∈ m.map Prod.fst := by
  intro m
  induction m with
  | nil => simp [mapInsert]
  | cons p rest ih =>
    obtain ⟨k', v'⟩ := p
    by_cases h1 : strLt n k'
    · simp only [mapInsert, if_pos h1, List.map_cons, List.mem_cons]
      tauto
    · by_cases h2 : n = k'
      · simp only [mapInsert, if_neg h1, if_pos h2, List.map_cons,
                   List.mem_cons]
        tauto
      · simp only [mapInsert, if_neg h1, if_neg h2, List.map_cons,
                   List.mem_cons]
        rintro (rfl | hb)
        · tauto
        · rcases ih hb with rfl | hb' <;> tauto

theorem pairwise_keys_mapInsert {α : Type} (n : String) (v : α)
    (m : List (String × α))
    (h : List.Pairwise (fun a b => strLt a b = true) (m.map Prod.fst)) :
    List.Pairwise (fun a b => strLt a b = true)
      ((mapInsert n v m).map Prod.fst) := by
  induction m with
  | nil => simp [mapInsert]
  | cons p rest ih =>
    obtain ⟨k', v'⟩ := p
    simp only [List.map_cons, List.pairwise_cons] at h
    obtain ⟨hall, hrest⟩ := h
    by_cases h1 : strLt n k'
    · simp only [mapInsert, if_pos h1, List.map_cons, List.pairwise_cons]
      refine ⟨?_, ?_, hrest⟩
      · intro b hb
        rcases List.mem_cons.mp hb with rfl | hb'
        · exact h1
        · exact strLt_trans n k' b h1 (hall b hb')
      · exact hall
    · by_cases h2 : n = k'
      · subst h2
        have hins : mapInsert n v ((n, v') :: rest) = (n, v) :: rest := by
          simp [mapInsert, h1]
        rw [hins]
        simp only [List.map_cons, List.pairwise_cons]
        exact ⟨hall, hrest⟩
      · have h3 : strLt k' n = true := by
          rcases strLt_trichotomy n k' with h | h | h
          · exact absurd h h1
          · exact absurd h h2
          · exact h
        simp only [mapInsert, if_neg h1, if_neg h2, List.map_cons,
                   List.pairwise_cons]
        refine ⟨?_, ih hrest⟩
        intro b hb
        rcases mem_keys_mapInsert b n v rest hb with rfl | hb'
        · exact h3
        · exact hall b hb'

theorem processAddColumns_sorted :
    ∀ (entries : List String) (m m' : List (String × String)),
    processAddColumns m entries = AddColumnOutcome.ok m' →
    List.Pairwise (fun a b => strLt a b = true) (m.map Prod.fst) →
    List.Pairwise (fun a b => strLt a b = true) (m'.map Prod.fst) := by
  intro entries
  induction entries with
  | nil =>
    intro m m' h hs
    simp only [processAddColumns, AddColumnOutcome.ok.injEq] at h
    exact h ▸ hs
  | cons s rest ih =>
    intro m m' h hs
    simp only [processAddColumns] at h
    cases hp : parseAddColumn m s with
    | ok cols =>
      simp only [hp] at h
      obtain ⟨name, value, _, hins⟩ := parseAddColumn_ok hp
      exact ih cols m' h (hins ▸ pairwise_keys_mapInsert name value m hs)
    | err e => simp only [hp] at h; cases h
    | assertFail => simp only [hp] at h; cases h

theorem addConstColumn_cols (t : Table) (n v : String) :
    (t.addConstColumn n v).cols = t.cols ++ [n] := rfl

theorem addConstColumn_rows (t : Table) (n v : String) :
    (t.addConstColumn n v).rows = t.rows := rfl

theorem addColumn_cols (t : Table) (n : String) :
    (t.addColumn n).cols = t.cols ++ [n] := rfl

theorem addColumn_rows (t : Table) (n : String) :
    (t.addColumn n).rows = t.rows := rfl

theorem foldl_addConstColumn_cols (l : List (String × String)) :
    ∀ t : Table,
    (l.foldl (fun t p => t.addConstColumn p.1 p.2) t).cols =
      t.cols ++ l.map Prod.fst := by
  induction l with
  | nil => intro t; simp
  | cons p rest ih =>
    intro t
    rw [List.foldl_cons, ih, addConstColumn_cols]
    simp

theorem foldl_addConstColumn_rows (l : List (String × String)) :
    ∀ t : Table,
    (l.foldl (fun t p => t.addConstColumn p.1 p.2) t).rows = t.rows := by
  induction l with
  | nil => intro t; simp
  | cons p rest ih =>
    intro t
    rw [List.foldl_cons, ih, addConstColumn_rows]

theorem prepareTable_cols (extra : List String) :
    ∀ t : Table, (prepareTable t extra).cols = t.cols ++ extra := by
  induction extra with
  | nil => intro t; simp [prepareTable]
  | cons c rest ih =>
    intro t
    have ih' : ∀ t' : Table,
        (List.foldl Table.addColumn t' rest).cols = t'.cols ++ rest := ih
    show (List.foldl Table.addColumn t (c :: rest)).cols = t.cols ++ c :: rest
    rw [List.foldl_cons, ih', addColumn_cols]
    simp

theorem prepareTable_rows (extra : List String) :
    ∀ t : Table, (prepareTable t extra).rows = t.rows := by
  induction extra with
  | nil => intro t; simp [prepareTable]
  | cons c rest ih =>
    intro t
    have ih' : ∀ t' : Table,
        (List.foldl Table.addColumn t' rest).rows = t'.rows := ih
    show (List.foldl Table.addColumn t (c :: rest)).rows = t.rows
    rw [List.foldl_cons, ih', addColumn_rows]

theorem buildTable_cols (columns : List (String × String)) (b : BenchmarkSpec)
    (beh : BenchBehavior) :
    (buildTable columns b beh).cols =
      columns.map Prod.fst ++
        ["unit", "benchmark", "testcase", "iterations", "run_number"] ++
        beh.extraColumns := by
  simp only [buildTable, prepareTable_cols, addColumn_cols,
             addConstColumn_cols, foldl_addConstColumn_cols]
  show ([] ++ columns.map Prod.fst ++ ["unit"] ++ ["benchmark"] ++
        ["testcase"] ++ ["iterations"] ++ ["run_number"]) ++
        beh.extraColumns = _
  simp

theorem buildTable_rows (columns : List (String × String)) (b : BenchmarkSpec)
    (beh : BenchBehavior) : (buildTable columns b beh).rows = [] := by
  simp only [buildTable, prepareTable_rows, addColumn_rows,
             addConstColumn_rows, foldl_addConstColumn_rows]
  rfl

/-- C6 counterexample: inserting custom columns in the order z then a, the
table declares column a before column z — std::map key order, not insertion
order as the claim states. -/
theorem add_column_order_counterexample :
    processAddColumns [] ["z=1", "a=2"] =
      AddColumnOutcome.ok [("a", "2"), ("z", "1")] ∧
    (buildTable [("a", "2"), ("z", "1")] benchDemo behDemo).cols =
      ["a", "z", "unit", "benchmark", "testcase", "iterations", "run_number"] ∧
    (["a", "z", "unit", "benchmark", "testcase", "iterations",
      "run_number"] : List String) ≠
      ["z", "a", "unit", "benchmark", "testcase", "iterations",
       "run_number"] := by
  refine ⟨rfl, rfl, by decide⟩

/-- C6 amended: the results table declares one constant column per custom
add-column entry in std::map key order (lexicographically sorted names, since
the custom-columns map keeps its keys sorted), then the constants unit,
benchmark and testcase, then the per-row columns iterations and run_number,
then the columns the benchmark itself declares. -/
theorem table_column_order :
    (∀ (columns : List (String × String)) (b : BenchmarkSpec)
        (beh : BenchBehavior),
        (buildTable columns b beh).cols =
          columns.map Prod.fst ++
            ["unit", "benchmark", "testcase", "iterations", "run_number"] ++
            beh.extraColumns) ∧
    (∀ (entries : List String) (m' : List (String × String)),
        processAddColumns [] entries = AddColumnOutcome.ok m' →
        List.Pairwise (fun a b => strLt a b = true) (m'.map Prod.fst)) := by
  refine ⟨buildTable_cols, ?_⟩
  intro entries m' h
  exact processAddColumns_sorted entries [] m' h (by simp)

/-- C6 witness: the custom-column map built from the entries z=1, a=2 has its
keys in sorted order. -/
theorem table_column_order_witness :
    List.Pairwise (fun a b => strLt a b = true)
      (([("a", "2"), ("z", "1")] : List (String × String)).map Prod.fst) :=
  table_column_order.2 ["z=1", "a=2"] [("a", "2"), ("z", "1")] rfl

theorem applyResultFilter_cols (names : List String) :
    ∀ t : Table,
    (applyResultFilter names t).cols = t.cols.filter (fun c => c ∉ names) := by
  induction names with
  | nil => intro t; simp [applyResultFilter]
  | cons n ns ih =>
    intro t
    rw [applyResultFilter]
    by_cases hc : t.hasColumn n = true
    · rw [if_pos hc, ih]
      show (t.cols.filter (fun c => c ≠ n)).filter (fun c => c ∉ ns) = _
      rw [List.filter_filter]
      apply List.filter_congr
      intro a _
      by_cases han : a = n
      · subst han; simp
      · simp [han, List.mem_cons]
    · rw [if_neg hc, ih]
      apply List.filter_congr
      intro a ha
      have han : a ≠ n := by
        rintro rfl
        exact hc (List.elem_eq_true_of_mem ha)
      simp [List.mem_cons, han]

theorem applyResultFilter_constVals (names : List String) :
    ∀ t : Table,
    (applyResultFilter names t).constVals =
      t.constVals.filter (fun p => ¬(p.1 ∈ names ∧ p.1 ∈ t.cols)) := by
  induction names with
  | nil => intro t; simp [applyResultFilter]
  | cons n ns ih =>
    intro t
    rw [applyResultFilter]
    by_cases hc : t.hasColumn n = true
    · have hn : n ∈ t.cols := by simpa [Table.hasColumn, List.contains] using hc
      rw [if_pos hc, ih]
      show ((t.constVals.filter fun p => p.1 ≠ n).filter
              fun p => ¬(p.1 ∈ ns ∧ p.1 ∈ (t.dropColumn n).cols)) = _
      rw [List.filter_filter]
      apply List.filter_congr
      intro p _
      show (decide ¬(p.1 ∈ ns ∧ p.1 ∈ (t.cols.filter fun c => c ≠ n)) &&
            decide ¬(p.1 = n)) = decide ¬(p.1 ∈ n :: ns ∧ p.1 ∈ t.cols)
      by_cases hpn : p.1 = n
      · simp [hpn, hn]
      · simp [hpn, List.mem_cons, List.mem_filter]
    · have hn : n ∉ t.cols := fun hm => hc (List.elem_eq_true_of_mem hm)
      rw [if_neg hc, ih]
      apply List.filter_congr
      intro p _
      by_cases hpn : p.1 = n
      · simp [hpn, hn, List.mem_cons]
      · simp [hpn, List.mem_cons]

theorem applyResultFilter_rows (names : List String) :
    ∀ t : Table,
    (applyResultFilter names t).rows =
      t.rows.map (fun r => r.filter (fun p => ¬(p.1 ∈ names ∧ p.1 ∈ t.cols))) := by
  induction names with
  | nil => intro t; simp [applyResultFilter]
  | cons n ns ih =>
    intro t
    rw [applyResultFilter]
    by_cases hc : t.hasColumn n = true
    · have hn : n ∈ t.cols := by simpa [Table.hasColumn, List.contains] using hc
      rw [if_pos hc, ih]
      show ((t.rows.map fun r => r.filter fun p => p.1 ≠ n).map
              fun r => r.filter fun p => ¬(p.1 ∈ ns ∧ p.1 ∈ (t.dropColumn n).cols)) = _
      rw [List.map_map]
      apply List.map_congr_left
      intro r _
      show ((r.filter fun p => p.1 ≠ n).filter
              fun p => ¬(p.1 ∈ ns ∧ p.1 ∈ (t.cols.filter fun c => c ≠ n))) = _
      rw [List.filter_filter]
      apply List.filter_congr
      intro p _
      by_cases hpn : p.1 = n
      · simp [hpn, hn]
      · simp [hpn, List.mem_cons, List.mem_filter]
    · have hn : n ∉ t.cols := fun hm => hc (List.elem_eq_true_of_mem hm)
      rw [if_neg hc, ih]
      apply List.map_congr_left
      intro r _
      apply List.filter_congr
      intro p _
      by_cases hpn : p.1 = n
      · simp [hpn, hn, List.mem_cons]
      · simp [hpn, List.mem_cons]

/-- C8: applying the result filter drops from the table exactly the named
columns that are present — together with their constant values and per-row
cells — leaves every other column and every row otherwise unchanged, and is
a no-op for names matching no column. -/
theorem result_filter_drop (names : List String) (t : Table) :
    applyResultFilter names t =
      ⟨t.cols.filter (fun c => c ∉ names),
       t.constVals.filter (fun p => ¬(p.1 ∈ names ∧ p.1 ∈ t.cols)),
       t.rows.map (fun r => r.filter (fun p => ¬(p.1 ∈ names ∧ p.1 ∈ t.cols)))⟩ := by
  calc applyResultFilter names t
      = ⟨(applyResultFilter names t).cols, (applyResultFilter names t).constVals,
         (applyResultFilter names t).rows⟩ := rfl
    _ = _ := by
        rw [applyResultFilter_cols, applyResultFilter_constVals,
            applyResultFilter_rows]

theorem runBenchmark_occupied (opts : Options)
    (columns : List (String × String)) (b : BenchmarkSpec) (cfg : Nat)
    (slot : Option (String × String)) (hdry : opts.dry_run = false)
    (hslot : slot.isSome = true) :
    runBenchmark opts columns b cfg slot =
      RunOutcome.assertViolation "current_benchmark" := by
  rw [runBenchmark, if_neg (by simp [hdry]), if_pos hslot]

theorem runBenchmark_ret_none (opts : Options)
    (columns : List (String × String)) (b : BenchmarkSpec) (cfg : Nat)
    (slot' : Option (String × String)) (d : Option Table)
    (h : runBenchmark opts columns b cfg none = RunOutcome.ret slot' d) :
    slot' = none := by
  simp only [runBenchmark, Option.isSome_none, Bool.false_eq_true, if_false] at h
  by_cases hdry : opts.dry_run = true
  · rw [if_pos hdry] at h
    injection h with h1 h2
    exact h1.symm
  · rw [if_neg hdry] at h
    by_cases hskip : (b.behavior cfg).skip = true
    · rw [if_pos hskip] at h
      injection h with h1 h2
      exact h1.symm
    · rw [if_neg hskip] at h
      by_cases hr : effectiveRuns opts (b.behavior cfg) = 0
      · rw [if_pos hr] at h
        cases h
      · rw [if_neg hr] at h
        cases hloop : runLoop (effectiveRuns opts (b.behavior cfg))
            (b.behavior cfg).trials 0
            (buildTable columns b (b.behavior cfg)) with
        | none => rw [hloop] at h; cases h
        | some t' =>
          rw [hloop] at h
          injection h with h1 h2
          exact h1.symm

theorem runConfigsFrom_slot (opts : Options)
    (columns : List (String × String)) (b : BenchmarkSpec) :
    ∀ (n i : Nat) (tables : List Table) (slotEnd : Option (String × String)),
    runConfigsFrom opts columns b i n none = some (tables, slotEnd) →
    slotEnd = none := by
  intro n
  induction n with
  | zero =>
    intro i tables slotEnd h
    simp only [runConfigsFrom] at h
    injection h with h1
    injection h1 with h2 h3
    exact h3.symm
  | succ k ih =>
    intro i tables slotEnd h
    simp only [runConfigsFrom] at h
    cases hrb : runBenchmark opts columns b i none with
    | ret slot' d =>
      have hs : slot' = none := runBenchmark_ret_none opts columns b i slot' d hrb
      subst hs
      simp only [hrb] at h
      cases hrec : runConfigsFrom opts columns b (i + 1) k none with
      | none => simp only [hrec] at h; cases h
      | some pr =>
        obtain ⟨ts, send⟩ := pr
        simp only [hrec] at h
        injection h with h1
        injection h1 with h2 h3
        exact h3 ▸ ih (i + 1) ts send hrec
    | assertViolation site => simp only [hrb] at h; cases h
    | diverge => simp only [hrb] at h; cases h

/-- C9: the current-benchmark slot is never re-entered: outside dry-run mode,
entering run_benchmark with an occupied slot is a fatal assertion; every
normal return from a call entered with an empty slot — dry run, skip, or
completed run — leaves the slot empty again; hence threading the slot through
any scheduled sequence of run_benchmark invocations keeps it empty between
executions. -/
theorem current_benchmark_slot_invariant :
    (∀ (opts : Options) (columns : List (String × String)) (b : BenchmarkSpec)
        (cfg : Nat) (slot : Option (String × String)),
        opts.dry_run = false → slot.isSome = true →
        runBenchmark opts columns b cfg slot =
          RunOutcome.assertViolation "current_benchmark") ∧
    (∀ (opts : Options) (columns : List (String × String)) (b : BenchmarkSpec)
        (cfg : Nat) (slot' : Option (String × String)) (d : Option Table),
        runBenchmark opts columns b cfg none = RunOutcome.ret slot' d →
        slot' = none) ∧
    (∀ (opts : Options) (columns : List (String × String)) (b : BenchmarkSpec)
        (n i : Nat) (tables : List Table)
        (slotEnd : Option (String × String)),
        runConfigsFrom opts columns b i n none = some (tables, slotEnd) →
        slotEnd = none) := by
  refine ⟨runBenchmark_occupied, ?_, ?_⟩
  · intro opts columns b cfg slot' d h
    exact runBenchmark_ret_none opts columns b cfg slot' d h
  · intro opts columns b n i tables slotEnd h
    exact runConfigsFrom_slot opts columns b n i tables slotEnd h

/-- C9 witness: entering run_benchmark with an occupied slot outside dry-run
mode trips the current-benchmark assertion on a concrete input. -/
theorem current_benchmark_slot_invariant_witness :
    runBenchmark optsDemo [] benchDemo 0 (some ("T", "b")) =
      RunOutcome.assertViolation "current_benchmark" :=
  current_benchmark_slot_invariant.1 optsDemo [] benchDemo 0 (some ("T", "b"))
    rfl rfl

/-- C10: for a non-skipped, non-dry-run execution, an effective run count of
zero trips the fatal runs assertion before the run loop (so no table is
dispatched), and a positive effective run count makes that assertion branch
unreachable. -/
theorem runs_positive_assertion :
    ∀ (opts : Options) (columns : List (String × String)) (b : BenchmarkSpec)
      (cfg : Nat),
      opts.dry_run = false → (b.behavior cfg).skip = false →
      (effectiveRuns opts (b.behavior cfg) = 0 →
        runBenchmark opts columns b cfg none =
          RunOutcome.assertViolation "runs") ∧
      (0 < effectiveRuns opts (b.behavior cfg) →
        runBenchmark opts columns b cfg none ≠
          RunOutcome.assertViolation "runs") := by
  intro opts columns b cfg hdry hskip
  constructor
  · intro hr
    rw [runBenchmark, if_neg (by simp [hdry])]
    simp only [Option.isSome_none, Bool.false_eq_true, if_false]
    rw [if_neg (by simp [hskip]), if_pos hr]
  · intro hr
    rw [runBenchmark, if_neg (by simp [hdry])]
    simp only [Option.isSome_none, Bool.false_eq_true, if_false]
    rw [if_neg (by simp [hskip]), if_neg (by omega)]
    cases hloop : runLoop (effectiveRuns opts (b.behavior cfg))
        (b.behavior cfg).trials 0 (buildTable columns b (b.behavior cfg)) with
    | none => simp
    | some t' => simp

/-- C10 witness: --runs=0 on a concrete non-skipped benchmark trips the runs
assertion. -/
theorem runs_positive_assertion_witness :
    runBenchmark ⟨some 0, false, none⟩ [] benchDemo 0 none =
      RunOutcome.assertViolation "runs" :=
  (runs_positive_assertion ⟨some 0, false, none⟩ [] benchDemo 0 rfl rfl).1 rfl

theorem setValue_rows_concat (t : Table) (rs : List (List (String × Value)))
    (row : List (String × Value)) (h : t.rows = rs ++ [row]) (n : String)
    (v : Value) : (t.setValue n v).rows = rs ++ [setCell n v row] := by
  simp [Table.setValue, h, List.dropLast_concat, List.getLast?_concat]

theorem foldl_setValue_rows (ps : List (String × Value)) :
    ∀ (t : Table) (rs : List (List (String × Value)))
      (row : List (String × Value)), t.rows = rs ++ [row] →
    (ps.foldl (fun t p => t.setValue p.1 p.2) t).rows =
      rs ++ [ps.foldl (fun r p => setCell p.1 p.2 r) row] := by
  induction ps with
  | nil => intro t rs row h; simpa using h
  | cons p ps ih =>
    intro t rs row h
    rw [List.foldl_cons, List.foldl_cons]
    exact ih (t.setValue p.1 p.2) rs (setCell p.1 p.2 row)
      (setValue_rows_concat t rs row h p.1 p.2)

theorem step_rows (t : Table) (tr : Trial) (run : Nat) :
    (storeRun ((t.addRow.setValue "iterations"
        (Value.nat tr.iterations)).setValue "run_number" (Value.nat run))
      tr).rows = t.rows ++ [acceptedRow tr run] := by
  have h1 : (t.addRow).rows = t.rows ++ [[]] := rfl
  have h2 := setValue_rows_concat t.addRow t.rows [] h1 "iterations"
    (Value.nat tr.iterations)
  have h3 := setValue_rows_concat _ t.rows _ h2 "run_number" (Value.nat run)
  exact foldl_setValue_rows tr.stored _ t.rows _ h3

theorem mapFind_filter {α : Type} (k : String) (p : String × α → Bool)
    (hp : ∀ v : α, p (k, v) = true) :
    ∀ r : List (String × α), mapFind k (r.filter p) = mapFind k r := by
  intro r
  induction r with
  | nil => rfl
  | cons q rest ih =>
    obtain ⟨k1, v1⟩ := q
    by_cases hk : k1 = k
    · subst hk
      simp [List.filter_cons, hp v1, mapFind]
    · by_cases hq : p (k1, v1) = true
      · simp [List.filter_cons, hq, mapFind, hk, ih]
      · simp only [List.filter_cons, hq, if_neg, Bool.false_eq_true, if_false,
                   ih]
        simp [mapFind, hk]

theorem mapFind_setCell_ne (k n : String) (v : Value)
    (row : List (String × Value)) (h : n ≠ k) :
    mapFind k (setCell n v row) = mapFind k row := by
  simp only [setCell, mapFind, if_neg h]
  exact mapFind_filter k _
    (fun v' => by
      simp only [decide_eq_true_eq, ne_eq]
      exact fun e => h e.symm) row

theorem mapFind_setCell_eq (n : String) (v : Value)
    (row : List (String × Value)) :
    mapFind n (setCell n v row) = some v := by
  simp [setCell, mapFind]

theorem mapFind_foldl_setCell (k : String) (ps : List (String × Value))
    (h : ∀ p ∈ ps, p.1 ≠ k) :
    ∀ row, mapFind k (ps.foldl (fun r p => setCell p.1 p.2 r) row) =
      mapFind k row := by
  induction ps with
  | nil => intro row; rfl
  | cons p ps ih =>
    intro row
    rw [List.foldl_cons, ih (fun q hq => h q (List.mem_cons_of_mem _ hq))]
    exact mapFind_setCell_ne k p.1 p.2 row (h p (List.mem_cons_self _ _))

theorem mapFind_acceptedRow (tr : Trial) (run : Nat)
    (h : ∀ p ∈ tr.stored, p.1 ≠ "run_number") :
    mapFind "run_number" (acceptedRow tr run) = some (Value.nat run) := by
  unfold acceptedRow
  rw [mapFind_foldl_setCell "run_number" tr.stored h]
  exact mapFind_setCell_eq "run_number" (Value.nat run) _

theorem runLoop_rows (runs : Nat) :
    ∀ (trials : List Trial) (run : Nat) (t : Table),
    (∀ tr ∈ trials, ∀ p ∈ tr.stored, p.1 ≠ "run_number") →
    runs - run ≤ (trials.filter (fun tr => tr.accept)).length →
    ∃ t', runLoop runs trials run t = some t' ∧
      t'.rows.length = t.rows.length + (runs - run) ∧
      t'.rows.map (fun r => mapFind "run_number" r) =
        t.rows.map (fun r => mapFind "run_number" r) ++
          (List.range' run (runs - run)).map (fun i => some (Value.nat i)) := by
  intro trials
  induction trials with
  | nil =>
    intro run t hst hcount
    have hz : runs - run = 0 := by simpa using hcount
    have hrr : ¬ run < runs := by omega
    refine ⟨t, ?_, by omega, ?_⟩
    · rw [runLoop, if_neg hrr]
    · rw [hz]
      simp
  | cons tr rest ih =>
    intro run t hst hcount
    have hst' : ∀ q ∈ rest, ∀ p ∈ q.stored, p.1 ≠ "run_number" :=
      fun q hq => hst q (List.mem_cons_of_mem _ hq)
    by_cases hrr : run < runs
    · by_cases hacc : tr.accept = true
      · have hcount' :
            runs - (run + 1) ≤ (rest.filter (fun tr => tr.accept)).length := by
          rw [List.filter_cons, if_pos hacc] at hcount
          simp at hcount
          omega
        obtain ⟨t', ht', hlen, hmap⟩ := ih (run + 1)
          (storeRun ((t.addRow.setValue "iterations"
              (Value.nat tr.iterations)).setValue "run_number"
              (Value.nat run)) tr) hst' hcount'
        rw [step_rows] at hlen hmap
        refine ⟨t', ?_, ?_, ?_⟩
        · rw [runLoop, if_pos hrr]
          simp only [hacc, if_true]
          exact ht'
        · rw [hlen]
          simp only [List.length_append, List.length_cons, List.length_nil]
          omega
        · rw [hmap, List.map_append]
          have hval := mapFind_acceptedRow tr run (hst tr (List.mem_cons_self _ _))
          have hm : runs - run = (runs - (run + 1)) + 1 := by omega
          rw [hm, List.range'_succ]
          simp [hval, List.append_assoc]
      · have hcount' :
            runs - run ≤ (rest.filter (fun tr => tr.accept)).length := by
          rw [List.filter_cons, if_neg hacc] at hcount
          exact hcount
        obtain ⟨t', ht', hlen, hmap⟩ := ih run t hst' hcount'
        refine ⟨t', ?_, hlen, hmap⟩
        rw [runLoop, if_pos hrr]
        simp only [hacc, Bool.false_eq_true, if_false]
        exact ht'
    · have hz : runs - run = 0 := by omega
      refine ⟨t, ?_, by omega, by rw [hz]; simp⟩
      rw [runLoop, if_neg hrr]

theorem runBenchmark_complete (opts : Options)
    (columns : List (String × String)) (b : BenchmarkSpec) (cfg : Nat)
    (hdry : opts.dry_run = false) (hskip : (b.behavior cfg).skip = false)
    (hpos : 0 < effectiveRuns opts (b.behavior cfg)) (t' : Table)
    (hloop : runLoop (effectiveRuns opts (b.behavior cfg))
        (b.behavior cfg).trials 0 (buildTable columns b (b.behavior cfg)) =
      some t') :
    runBenchmark opts columns b cfg none =
      RunOutcome.ret none (some
        (match opts.result_filter with
         | some names => applyResultFilter names t'
         | none => t')) := by
  simp only [runBenchmark, Option.isSome_none, Bool.false_eq_true, if_false]
  rw [if_neg (by simp [hdry]), if_neg (by simp [hskip]), if_neg (by omega),
      hloop]

/-- C1: for a completed non-skipped, non-dry-run execution, the dispatched
table holds exactly R accepted rows, where R is the --runs override when
supplied and the benchmark's own declared run count otherwise; the run_number
column takes the values 0..R-1 in order; rejected trials never append a row
or advance the run index (the property holds for any interleaving of rejected
trials), and a warm-up iteration is never stored (the property holds whether
or not the benchmark requests one). -/
theorem run_benchmark_row_accounting :
    ∀ (opts : Options) (columns : List (String × String)) (b : BenchmarkSpec)
      (cfg r : Nat),
      opts.dry_run = false →
      (b.behavior cfg).skip = false →
      effectiveRuns opts (b.behavior cfg) = r →
      0 < r →
      r ≤ ((b.behavior cfg).trials.filter (fun tr => tr.accept)).length →
      (∀ tr ∈ (b.behavior cfg).trials, ∀ p ∈ tr.stored, p.1 ≠ "run_number") →
      "run_number" ∉ opts.result_filter.getD [] →
      (∀ rr, opts.runs = some rr → r = rr) ∧
      (opts.runs = none → r = (b.behavior cfg).runs) ∧
      ∃ t, runBenchmark opts columns b cfg none =
          RunOutcome.ret none (some t) ∧
        t.rows.length = r ∧
        t.rows.map (fun row => mapFind "run_number" row) =
          (List.range r).map (fun i => some (Value.nat i)) := by
  intro opts columns b cfg r hdry hskip heff hpos hcount hst hfil
  refine ⟨?_, ?_, ?_⟩
  · intro rr hrr
    rw [← heff]
    simp [effectiveRuns, hrr]
  · intro hnone
    rw [← heff]
    simp [effectiveRuns, hnone]
  · obtain ⟨t', hloop, hlen, hmap⟩ := runLoop_rows
      (effectiveRuns opts (b.behavior cfg)) (b.behavior cfg).trials 0
      (buildTable columns b (b.behavior cfg)) hst (by rw [heff]; simpa using hcount)
    rw [buildTable_rows] at hlen hmap
    simp only [List.length_nil, List.map_nil, List.nil_append, Nat.zero_add,
               Nat.sub_zero] at hlen hmap
    have hcompl := runBenchmark_complete opts columns b cfg hdry hskip
      (by omega) t' hloop
    cases hf : opts.result_filter with
    | none =>
      rw [hf] at hcompl
      refine ⟨t', hcompl, by omega, ?_⟩
      rw [hmap, heff, List.range_eq_range' r]
    | some names =>
      have hfil' : "run_number" ∉ names := by
        rw [hf] at hfil
        simpa using hfil
      rw [hf] at hcompl
      refine ⟨applyResultFilter names t', hcompl, ?_, ?_⟩
      · rw [applyResultFilter_rows names t', List.length_map]
        omega
      · rw [applyResultFilter_rows names t', List.map_map]
        have hcongr : (t'.rows.map
            ((fun row => mapFind "run_number" row) ∘
             (fun r => r.filter
               (fun p => ¬(p.1 ∈ names ∧ p.1 ∈ t'.cols))))) =
            t'.rows.map (fun row => mapFind "run_number" row) := by
          apply List.map_congr_left
          intro row _
          exact mapFind_filter "run_number" _
            (fun v => by simp [hfil']) row
        rw [hcongr, hmap, heff, List.range_eq_range' r]

/-- C1 witness: a concrete three-trial stream (accept, reject, accept) with a
declared run count of two dispatches exactly two rows numbered 0 and 1. -/
theorem run_benchmark_row_accounting_witness :
    (∀ rr, optsDemo.runs = some rr → 2 = rr) ∧
    (optsDemo.runs = none → 2 = (benchDemo.behavior 0).runs) ∧
    ∃ t, runBenchmark optsDemo [] benchDemo 0 none =
        RunOutcome.ret none (some t) ∧
      t.rows.length = 2 ∧
      t.rows.map (fun row => mapFind "run_number" row) =
        (List.range 2).map (fun i => some (Value.nat i)) :=
  run_benchmark_row_accounting optsDemo [] benchDemo 0 2 rfl rfl rfl
    (by decide) (by decide) (by decide) (by decide)

theorem configEventsFrom_length : ∀ n i : Nat,
    (configEventsFrom i n).length = 2 * n := by
  intro n
  induction n with
  | zero => intro i; rfl
  | succ k ih =>
    intro i
    show (SchedEvent.setConfig i :: SchedEvent.invokeRun ::
      configEventsFrom (i + 1) k).length = 2 * (k + 1)
    simp only [List.length_cons, ih (i + 1)]
    omega

theorem configEventsFrom_get : ∀ n i j : Nat, j < n →
    (configEventsFrom i n).get? (2 * j) =
      some (SchedEvent.setConfig (i + j)) ∧
    (configEventsFrom i n).get? (2 * j + 1) = some SchedEvent.invokeRun := by
  intro n
  induction n with
  | zero => intro i j hj; exact absurd hj (Nat.not_lt_zero j)
  | succ k ih =>
    intro i j hj
    cases j with
    | zero => exact ⟨rfl, rfl⟩
    | succ j' =>
      have hj' : j' < k := by omega
      obtain ⟨ha, hb⟩ := ih (i + 1) j' hj'
      have hadd : i + 1 + j' = i + (j' + 1) := by omega
      rw [hadd] at ha
      constructor
      · have h2 : 2 * (j' + 1) = 2 * j' + 1 + 1 := by ring
        rw [h2]
        show (SchedEvent.setConfig i :: SchedEvent.invokeRun ::
          configEventsFrom (i + 1) k).get? (2 * j' + 1 + 1) = _
        rw [List.get?_cons_succ, List.get?_cons_succ]
        exact ha
      · have h2 : 2 * (j' + 1) + 1 = 2 * j' + 1 + 1 + 1 := by ring
        rw [h2]
        show (SchedEvent.setConfig i :: SchedEvent.invokeRun ::
          configEventsFrom (i + 1) k).get? (2 * j' + 1 + 1 + 1) = _
        rw [List.get?_cons_succ, List.get?_cons_succ]
        exact hb

theorem runLoop_complete (runs : Nat) :
    ∀ (trials : List Trial) (run : Nat) (t : Table),
    runs - run ≤ (trials.filter (fun tr => tr.accept)).length →
    ∃ t', runLoop runs trials run t = some t' := by
  intro trials
  induction trials with
  | nil =>
    intro run t hcount
    have hrr : ¬ run < runs := by simp at hcount; omega
    exact ⟨t, by rw [runLoop, if_neg hrr]⟩
  | cons tr rest ih =>
    intro run t hcount
    by_cases hrr : run < runs
    · by_cases hacc : tr.accept = true
      · have hcount' :
            runs - (run + 1) ≤ (rest.filter (fun tr => tr.accept)).length := by
          rw [List.filter_cons, if_pos hacc] at hcount
          simp at hcount
          omega
        obtain ⟨t', ht'⟩ := ih (run + 1) _ hcount'
        refine ⟨t', ?_⟩
        rw [runLoop, if_pos hrr]
        simp only [hacc, if_true]
        exact ht'
      · have hcount' :
            runs - run ≤ (rest.filter (fun tr => tr.accept)).length := by
          rw [List.filter_cons, if_neg hacc] at hcount
          exact hcount
        obtain ⟨t', ht'⟩ := ih run t hcount'
        refine ⟨t', ?_⟩
        rw [runLoop, if_pos hrr]
        simp only [hacc, Bool.false_eq_true, if_false]
        exact ht'
    · exact ⟨t, by rw [runLoop, if_neg hrr]⟩

theorem runConfigsFrom_complete (opts : Options)
    (columns : List (String × String)) (b : BenchmarkSpec)
    (hdry : opts.dry_run = false)
    (hgood : ∀ i, (b.behavior i).skip = false ∧
        0 < effectiveRuns opts (b.behavior i) ∧
        effectiveRuns opts (b.behavior i) ≤
          ((b.behavior i).trials.filter (fun tr => tr.accept)).length) :
    ∀ n i : Nat, ∃ tables,
      runConfigsFrom opts columns b i n none = some (tables, none) ∧
      tables.length = n := by
  intro n
  induction n with
  | zero => intro i; exact ⟨[], rfl, rfl⟩
  | succ k ih =>
    intro i
    obtain ⟨hskip, hpos, hcount⟩ := hgood i
    obtain ⟨t', hloop⟩ := runLoop_complete (effectiveRuns opts (b.behavior i))
      (b.behavior i).trials 0 (buildTable columns b (b.behavior i))
      (by simpa using hcount)
    have hrb := runBenchmark_complete opts columns b i hdry hskip hpos t' hloop
    obtain ⟨tables, hrec, hlen⟩ := ih (i + 1)
    refine ⟨(match opts.result_filter with
             | some names => applyResultFilter names t'
             | none => t') :: tables, ?_, by simp [hlen]⟩
    simp only [runConfigsFrom, hrb, hrec]
    rfl

/-- C2: a benchmark declaring K > 0 configuration sets has run_benchmark
invoked exactly K times with set_current_configuration(i) immediately before
the i-th invocation, for i increasing from 0; a benchmark declaring none has
run_benchmark invoked exactly once; accordingly, a non-skipped, non-dry-run
benchmark whose runs complete produces exactly K dispatched tables (one when
K = 0). -/
theorem run_benchmark_configurations_schedule :
    ∀ (opts : Options) (columns : List (String × String)) (b : BenchmarkSpec)
      (K : Nat),
      b.configCount = K →
      ((0 < K →
          (configEvents b).length = 2 * K ∧
          ∀ i, i < K →
            (configEvents b).get? (2 * i) = some (SchedEvent.setConfig i) ∧
            (configEvents b).get? (2 * i + 1) = some SchedEvent.invokeRun) ∧
       (K = 0 → configEvents b = [SchedEvent.invokeRun]) ∧
       (opts.dry_run = false →
        (∀ i, (b.behavior i).skip = false ∧
              0 < effectiveRuns opts (b.behavior i) ∧
              effectiveRuns opts (b.behavior i) ≤
                ((b.behavior i).trials.filter (fun tr => tr.accept)).length) →
        ∃ tables, runBenchmarkConfigurations opts columns b none =
            some (tables, none) ∧
          tables.length = if K = 0 then 1 else K)) := by
  intro opts columns b K hK
  refine ⟨?_, ?_, ?_⟩
  · intro hpos
    have hc : hasConfigurations b = true := by
      simp [hasConfigurations, hK]
      omega
    constructor
    · rw [configEvents, if_pos hc, hK]
      exact configEventsFrom_length K 0
    · intro i hi
      rw [configEvents, if_pos hc, hK]
      have := configEventsFrom_get K 0 i hi
      simpa using this
  · intro hzero
    have hc : ¬ hasConfigurations b = true := by
      simp [hasConfigurations, hK, hzero]
    rw [configEvents, if_neg hc]
  · intro hdry hgood
    by_cases hz : K = 0
    · have hc : ¬ hasConfigurations b = true := by
        simp [hasConfigurations, hK, hz]
      rw [runBenchmarkConfigurations, if_neg hc]
      obtain ⟨hskip, hp, hcount⟩ := hgood 0
      obtain ⟨t', hloop⟩ := runLoop_complete
        (effectiveRuns opts (b.behavior 0)) (b.behavior 0).trials 0
        (buildTable columns b (b.behavior 0)) (by simpa using hcount)
      have hrb := runBenchmark_complete opts columns b 0 hdry hskip hp t' hloop
      rw [hrb]
      exact ⟨[(match opts.result_filter with
               | some names => applyResultFilter names t'
               | none => t')], rfl, by simp [hz]⟩
    · have hc : hasConfigurations b = true := by
        simp [hasConfigurations, hK]
        omega
      rw [runBenchmarkConfigurations, if_pos hc, hK]
      obtain ⟨tables, hrc, hlen⟩ :=
        runConfigsFrom_complete opts columns b hdry hgood K 0
      exact ⟨tables, hrc, by simp [hz, hlen]⟩

/-- C2 witness: a concrete benchmark with two configuration sets dispatches
exactly two tables. -/
theorem run_benchmark_configurations_schedule_witness :
    ∃ tables, runBenchmarkConfigurations optsDemo [] benchDemo2 none =
        some (tables, none) ∧
      tables.length = if 2 = 0 then 1 else 2 :=
  (run_benchmark_configurations_schedule optsDemo [] benchDemo2 2 rfl).2.2 rfl
    (fun i =>
      ⟨rfl,
       by show 0 < effectiveRuns optsDemo behDemo; decide,
       by show effectiveRuns optsDemo behDemo ≤
            ((behDemo.trials.filter (fun tr => tr.accept)).length); decide⟩)

end Gauge
